import Mathlib

/-!
Shallow embedding of `index.go` from the CodingBeard/cbindex repository.

Modelling conventions:
- Go strings are modelled as Lean `String`; Go byte slicing `s[:n]` and
  `len(s)` are modelled character-wise (`goSlice`, `goLen`), which agrees
  with the Go code on ASCII data.
- Go `error` values are `GoError` (Go `errors.New` distinguishes errors by
  message, so a single `msg` constructor carries the message string).
- A Go call that can return a value, return an error, or panic at run time
  is modelled by `GoOutcome`.
- The `int32` counter `openHandleCount` is updated through `wrap32`, the
  two-sided complement wrap of `atomic.AddInt32`.
- `sync.Pool` holds interchangeable open handles to the one data file, so
  the pool is modelled by the number of idle cached handles (`poolIdle`);
  `Get` hands out a cached handle when one is idle and otherwise calls
  `New`, which returns a fresh handle when `os.Open` succeeds and the nil
  interface value when it fails.
- The file system and CSV layer seen by a lookup are a `World`: whether
  `os.Open` on the data path succeeds, what `Seek` returns at an offset,
  and the stream of `csv.Reader.Read` results from an offset.  One call of
  `csv.Reader.Read` either succeeds with a record (non-empty, so a first
  field plus the remaining fields), fails while still returning a partial
  record (as `csv.ErrFieldCount` does), or fails returning a nil record;
  end of file is the end of the stream.
-/

namespace Cbindex

/-- A Go error value; `errors.New` wraps a message string. -/
inductive GoError where
  | msg (s : String)
deriving DecidableEq

/-- `TooManyConcurrentHandlesError` from index.go. -/
def TooManyConcurrentHandlesError : GoError := .msg "too many concurrent handles"

/-- `InvalidHandleError` from index.go. -/
def InvalidHandleError : GoError := .msg "invalid handle"

/-- `KeyTooShortForIndex` from index.go. -/
def KeyTooShortForIndex : GoError := .msg "provided key too short for index"

/-- Outcome of running a Go computation: a value, a returned error, or a
run-time panic. -/
inductive GoOutcome (α : Type) where
  | ok (a : α)
  | err (e : GoError)
  | panicked
deriving DecidableEq

/-- One result of `csv.Reader.Read` (end of file is the end of the event
list): a successful record (first field and remaining fields), an error
accompanied by a partial record (as with `csv.ErrFieldCount`), or an error
with a nil record (as with parse errors). -/
inductive ReadEvent where
  | row (first : String) (rest : List String)
  | rowErr (first : String) (rest : List String) (e : GoError)
  | nilErr (e : GoError)
deriving DecidableEq

/-- The environment a lookup runs against. -/
structure World where
  openOk : Bool
  seekErr : Int → Option GoError
  events : Int → List ReadEvent

/-- The `FileIndex` struct of index.go.  `poolIdle` is the number of idle
handles cached in the `sync.Pool`. -/
structure FileIndex where
  dataCsvPath : String
  indexCsvPath : String
  concurrentHandleLimit : Int
  warmUp : Bool
  warmUpCount : Nat
  warmUpDelay : Int
  indexKeyLength : Nat
  poolIdle : Nat
  openHandleCount : Int
  index : List (String × Int)
deriving DecidableEq

/-- The `Config` struct of index.go. -/
structure Config where
  dataCsvPath : String
  indexCsvPath : String
  concurrentHandleLimit : Int
  warmUpCount : Nat
  warmUpDelay : Int
  indexKeyLength : Nat

/-- Character-wise model of the Go slice `s[:n]`. -/
def goSlice (s : String) (n : Nat) : String := ⟨s.data.take n⟩

/-- Character-wise model of Go `len(s)`. -/
def goLen (s : String) : Nat := s.data.length

/-- Model of `strings.ToLower`, applied character by character. -/
def goToLower (s : String) : String := ⟨s.data.map Char.toLower⟩

/-- Is `needle` a prefix of `hay`? -/
def isPrefixChars : List Char → List Char → Bool
  | [], _ => true
  | _ :: _, [] => false
  | a :: as, b :: bs => a == b && isPrefixChars as bs

/-- Does `hay` contain `needle` as a contiguous sublist?  Models
`strings.Contains` on the underlying characters. -/
def containsChars (needle : List Char) : List Char → Bool
  | [] => isPrefixChars needle []
  | h :: t => isPrefixChars needle (h :: t) || containsChars needle t

/-- Model of `strings.Contains s sub`. -/
def goContains (s sub : String) : Bool := containsChars sub.data s.data

/-- Accumulate decimal digits; fails on a non-digit character. -/
def decDigitsAux : List Char → Nat → Option Nat
  | [], acc => some acc
  | c :: t, acc =>
    if c.isDigit then decDigitsAux t (acc * 10 + (c.toNat - 48)) else none

/-- Model of `strconv.ParseInt(s, 10, 64)`: optional sign, decimal digits,
value bounded to the signed 64-bit range. -/
def parseInt64 (s : String) : Option Int :=
  match s.data with
  | [] => none
  | '+' :: t =>
    match t, decDigitsAux t 0 with
    | [], _ => none
    | _, some n => if n ≤ 9223372036854775807 then some (n : Int) else none
    | _, none => none
  | '-' :: t =>
    match t, decDigitsAux t 0 with
    | [], _ => none
    | _, some n => if n ≤ 9223372036854775808 then some (-(n : Int)) else none
    | _, none => none
  | cs =>
    match decDigitsAux cs 0 with
    | some n => if n ≤ 9223372036854775807 then some (n : Int) else none
    | none => none

/-- Assignment `index[key] = off` on the map modelled as an association
list: a later assignment to the same key overwrites the earlier entry. -/
def idxInsert : List (String × Int) → String → Int → List (String × Int)
  | [], k, v => [(k, v)]
  | (k0, v0) :: t, k, v =>
    if k0 = k then (k0, v) :: t else (k0, v0) :: idxInsert t k v

/-- Map read `offset, ok := index[key]`. -/
def idxLookup : List (String × Int) → String → Option Int
  | [], _ => none
  | (k0, v0) :: t, k => if k0 = k then some v0 else idxLookup t k

/-- The index-loading loop of `NewFileIndex`: reads index CSV records until
end of file.  Only `io.EOF` is tested, so a read error with a nil record
reaches `line[0]` and panics; a record with fewer than two fields panics at
`line[1]`; a record whose offset column does not parse is skipped; an
offset that parses is assigned into the map. -/
def buildIndexLoop (m : List (String × Int)) : List ReadEvent → GoOutcome (List (String × Int))
  | [] => .ok m
  | .nilErr _ :: _ => .panicked
  | .row k rest :: t | .rowErr k rest _ :: t =>
    match rest with
    | [] => .panicked
    | offStr :: _ =>
      match parseInt64 offStr with
      | none => buildIndexLoop m t
      | some off => buildIndexLoop (idxInsert m k off) t

/-- `NewFileIndex` from index.go.  `dataExists` and `indexExists` model the
two `os.Stat` probes, `openErr` the result of `os.Open` on the index file,
and `indexEvents` what the index CSV reader yields.  The pool starts empty
and the handle counter at zero. -/
def NewFileIndex (config : Config) (dataExists indexExists : Bool)
    (openErr : Option GoError) (indexEvents : List ReadEvent) :
    GoOutcome FileIndex :=
  if !dataExists then .err (.msg "data csv file does not exist")
  else if !indexExists then .err (.msg "index csv file does not exist")
  else
    match openErr with
    | some e => .err e
    | none =>
      match buildIndexLoop [] indexEvents with
      | .panicked => .panicked
      | .err e => .err e
      | .ok idx =>
        .ok { dataCsvPath := config.dataCsvPath
              indexCsvPath := config.indexCsvPath
              concurrentHandleLimit := config.concurrentHandleLimit
              warmUp := false
              warmUpCount := config.warmUpCount
              warmUpDelay := config.warmUpDelay
              indexKeyLength := config.indexKeyLength
              poolIdle := 0
              openHandleCount := 0
              index := idx }

/-- Two-sided-complement wrap of `atomic.AddInt32` into the `int32` range. -/
def wrap32 (n : Int) : Int := (n + 2147483648) % 4294967296 - 2147483648

/-- `sync.Pool.Get`: hand out an idle cached handle when one exists,
otherwise call `New`, which opens the data file; on open failure `New`
returns the nil interface value (`none` here).  The result is the new idle
count when a handle (a non-nil interface value) was obtained. -/
def poolGet (idle : Nat) (openOk : Bool) : Option Nat :=
  if 0 < idle then some (idle - 1)
  else if openOk then some 0
  else none

/-- `FileIndex.acquireHandle` from index.go.  The admission check compares
the loaded counter against the limit; on admission the counter is
incremented and `pool.Get()` is consulted.  The Go code then runs the type
assertion `.(*os.File)` on the value from the pool: when `New` returned the
nil interface value, a non-comma-ok type assertion on a nil interface
panics at run time, so the following `handle == nil` check (which would
return `InvalidHandleError`) is unreachable. -/
def FileIndex.acquireHandle (f : FileIndex) (openOk : Bool) : GoOutcome Unit × FileIndex :=
  if f.openHandleCount > f.concurrentHandleLimit then
    (.err TooManyConcurrentHandlesError, f)
  else
    match poolGet f.poolIdle openOk with
    | none =>
      (.panicked, { f with openHandleCount := wrap32 (f.openHandleCount + 1) })
    | some idle2 =>
      (.ok (), { f with openHandleCount := wrap32 (f.openHandleCount + 1),
                        poolIdle := idle2 })

/-- `FileIndex.releaseHandle` from index.go: for a non-nil handle,
decrement the counter and put the handle back into the pool; a nil handle
is a no-op. -/
def FileIndex.releaseHandle (f : FileIndex) (handleNonNil : Bool) : FileIndex :=
  if handleNonNil then
    { f with openHandleCount := wrap32 (f.openHandleCount - 1),
             poolIdle := f.poolIdle + 1 }
  else f

/-- The scan loop of `FileIndex.GetRow`.  Each iteration reads one CSV
record; only `io.EOF` is tested on the error, so an error with a nil
record reaches `line[0]` and panics, and an error with a partial record is
ignored and the record processed.  A record whose first field is shorter
than the key length is skipped; a record whose own prefix differs from the
target prefix ends the region; an exact first-field match returns the
record. -/
def scanRow (keyLen : Nat) (indexKey rowKey : String) :
    List ReadEvent → GoOutcome (Option (List String))
  | [] => .ok none
  | .nilErr _ :: _ => .panicked
  | .row first rest :: t | .rowErr first rest _ :: t =>
    if goLen first < keyLen then scanRow keyLen indexKey rowKey t
    else if goSlice first keyLen ≠ indexKey then .ok none
    else if first = rowKey then .ok (some (first :: rest))
    else scanRow keyLen indexKey rowKey t

/-- `FileIndex.GetRow` from index.go.  The deferred `releaseHandle` runs on
every path after a successful acquisition, including panic unwinding. -/
def FileIndex.GetRow (f : FileIndex) (w : World) (rowKey : String) :
    GoOutcome (Option (List String)) × FileIndex :=
  if goLen rowKey < f.indexKeyLength then (.err KeyTooShortForIndex, f)
  else
    match idxLookup f.index (goSlice rowKey f.indexKeyLength) with
    | none => (.ok none, f)
    | some offset =>
      match f.acquireHandle w.openOk with
      | (.err e, f1) => (.err e, f1)
      | (.panicked, f1) => (.panicked, f1)
      | (.ok _, f1) =>
        match w.seekErr offset with
        | some e => (.err e, f1.releaseHandle true)
        | none =>
          (scanRow f.indexKeyLength (goSlice rowKey f.indexKeyLength) rowKey
            (w.events offset),
           f1.releaseHandle true)

/-- The scan loop of `FileIndex.GetRowsByPartialKey`, carrying the `rows`
accumulator.  Error handling mirrors `scanRow`.  A record matches when its
lower-cased first field contains the lower-cased query; after appending a
match the loop returns as soon as `len(rows) >= limit && limit != -1`. -/
def scanPartial (keyLen : Nat) (indexKey rowKey : String) (limit : Int)
    (rows : List (List String)) : List ReadEvent → GoOutcome (List (List String))
  | [] => .ok rows
  | .nilErr _ :: _ => .panicked
  | .row first rest :: t | .rowErr first rest _ :: t =>
    if goLen first < keyLen then scanPartial keyLen indexKey rowKey limit rows t
    else if goSlice first keyLen ≠ indexKey then .ok rows
    else if goContains (goToLower first) (goToLower rowKey) then
      let rows2 := rows ++ [first :: rest]
      if (rows2.length : Int) ≥ limit ∧ limit ≠ -1 then .ok rows2
      else scanPartial keyLen indexKey rowKey limit rows2 t
    else scanPartial keyLen indexKey rowKey limit rows t

/-- `FileIndex.GetRowsByPartialKey` from index.go.  On every error return
path the accumulated `rows` value is still the initial nil slice, so the
error outcome carries no rows. -/
def FileIndex.GetRowsByPartialKey (f : FileIndex) (w : World) (rowKey : String)
    (limit : Int) : GoOutcome (List (List String)) × FileIndex :=
  if goLen rowKey < f.indexKeyLength then (.err KeyTooShortForIndex, f)
  else
    match idxLookup f.index (goSlice rowKey f.indexKeyLength) with
    | none => (.ok [], f)
    | some offset =>
      match f.acquireHandle w.openOk with
      | (.err e, f1) => (.err e, f1)
      | (.panicked, f1) => (.panicked, f1)
      | (.ok _, f1) =>
        match w.seekErr offset with
        | some e => (.err e, f1.releaseHandle true)
        | none =>
          (scanPartial f.indexKeyLength (goSlice rowKey f.indexKeyLength) rowKey
            limit [] (w.events offset),
           f1.releaseHandle true)

/-- A list of successful CSV records, as the event stream a cleanly
readable region produces. -/
def cleanEvents (rs : List (String × List String)) : List ReadEvent :=
  rs.map fun r => ReadEvent.row r.1 r.2

/-- A record that the exact-match scan walks past without stopping or
returning: its first field is either too short to carry a prefix, or it
carries the target prefix but is not the target key. -/
def passRec (keyLen : Nat) (indexKey rowKey : String) (r : String × List String) : Prop :=
  goLen r.1 < keyLen ∨ (goSlice r.1 keyLen = indexKey ∧ r.1 ≠ rowKey)

instance (keyLen : Nat) (indexKey rowKey : String) (r : String × List String) :
    Decidable (passRec keyLen indexKey rowKey r) := by
  unfold passRec; infer_instance

/-- Modelled from the spec (section 4.4): the records of the same-prefix
region, in file order, whose first field contains the query as a
case-insensitive substring.  Records with a first field shorter than the
prefix length are walked past; the region ends at the first record whose
own prefix differs. -/
def regionMatches (keyLen : Nat) (indexKey rowKey : String) :
    List (String × List String) → List (List String)
  | [] => []
  | r :: t =>
    if goLen r.1 < keyLen then regionMatches keyLen indexKey rowKey t
    else if goSlice r.1 keyLen ≠ indexKey then []
    else if goContains (goToLower r.1) (goToLower rowKey) then
      (r.1 :: r.2) :: regionMatches keyLen indexKey rowKey t
    else regionMatches keyLen indexKey rowKey t

/-- The event stream of a well-formed two-column index CSV: every read
succeeds and yields a prefix column and an offset column. -/
def twoColLines (lines : List (String × String)) : List ReadEvent :=
  lines.map fun p => ReadEvent.row p.1 [p.2]

/-- The index-loading loop restricted to well-formed two-column input,
written as a pure fold: unparsable offsets are skipped, parsable ones are
assigned into the map. -/
def buildIndexPure (m : List (String × Int)) : List (String × String) → List (String × Int)
  | [] => m
  | (k, s) :: t =>
    match parseInt64 s with
    | none => buildIndexPure m t
    | some off => buildIndexPure (idxInsert m k off) t

/-- One sequential call against the handle pool: an acquisition, or a
release of a handle (`nonNil` tells whether the released pointer is
non-nil). -/
inductive PoolOp where
  | acquire
  | release (nonNil : Bool)

/-- Run a sequence of pool calls one at a time, threading the engine
state. -/
def runPoolOps (openOk : Bool) (f : FileIndex) : List PoolOp → FileIndex
  | [] => f
  | PoolOp.acquire :: t => runPoolOps openOk (f.acquireHandle openOk).2 t
  | PoolOp.release b :: t => runPoolOps openOk (f.releaseHandle b) t

/-- Correct operation of a sequence of pool calls: a non-nil release only
happens while at least one successfully acquired handle is outstanding
(callers release exactly once per successful acquisition).  `out` counts
the handles currently held by callers. -/
def wfPoolOps (openOk : Bool) (f : FileIndex) (out : Nat) : List PoolOp → Bool
  | [] => true
  | PoolOp.acquire :: t =>
    match f.acquireHandle openOk with
    | (GoOutcome.ok _, f2) => wfPoolOps openOk f2 (out + 1) t
    | (GoOutcome.err _, f2) => wfPoolOps openOk f2 out t
    | (GoOutcome.panicked, f2) => wfPoolOps openOk f2 out t
  | PoolOp.release true :: t =>
    decide (1 ≤ out) && wfPoolOps openOk (f.releaseHandle true) (out - 1) t
  | PoolOp.release false :: t => wfPoolOps openOk (f.releaseHandle false) out t

/-- Invariant tying the wrapped `int32` counter to a ghost total `s` of
counter increments that were never rolled back: `out` of them are handles
held by callers.  For limits below the `int32` maximum the total stays at
most `limit + 1`; at the maximum the admission check never fails and only
the wrap bounds the counter. -/
def PoolInv (limit : Int) (f : FileIndex) (out : Nat) : Prop :=
  f.concurrentHandleLimit = limit ∧
    ∃ s : Nat, f.openHandleCount = wrap32 s ∧ out ≤ s ∧
      ((s : Int) ≤ limit + 1 ∨ limit = 2147483647)

/-- All fields of the engine other than the handle counter and the idle
pool agree between `f` and `g`. -/
def sameConfig (f g : FileIndex) : Prop :=
  g.dataCsvPath = f.dataCsvPath ∧ g.indexCsvPath = f.indexCsvPath ∧
  g.concurrentHandleLimit = f.concurrentHandleLimit ∧ g.warmUp = f.warmUp ∧
  g.warmUpCount = f.warmUpCount ∧ g.warmUpDelay = f.warmUpDelay ∧
  g.indexKeyLength = f.indexKeyLength ∧ g.index = f.index

instance (f g : FileIndex) : Decidable (sameConfig f g) := by
  unfold sameConfig; infer_instance

/-- A concrete engine used by the evaluation theorems: prefix length 2,
handle limit 10, one indexed prefix `ca` at offset 0, empty pool. -/
def fW : FileIndex :=
  { dataCsvPath := "data.csv"
    indexCsvPath := "index.csv"
    concurrentHandleLimit := 10
    warmUp := false
    warmUpCount := 0
    warmUpDelay := 0
    indexKeyLength := 2
    poolIdle := 0
    openHandleCount := 0
    index := [("ca", 0)] }

/-- A concrete world with a cleanly readable data file: the region at
offset 0 holds `cax,9` and `cat,1`, followed by a row of prefix `da`. -/
def wW : World :=
  { openOk := true
    seekErr := fun _ => none
    events := fun _ =>
      [ReadEvent.row "cax" ["9"], ReadEvent.row "cat" ["1"],
       ReadEvent.row "da" ["2"]] }

/-- A concrete world whose first read at any offset fails with a nil
record, as a CSV parse error does. -/
def wE1 : World :=
  { openOk := true
    seekErr := fun _ => none
    events := fun _ => [ReadEvent.nilErr (GoError.msg "csv parse failure")] }

/-- A concrete world whose first read returns a record of a foreign prefix
together with an error, as `csv.ErrFieldCount` does. -/
def wE2 : World :=
  { openOk := true
    seekErr := fun _ => none
    events := fun _ => [ReadEvent.rowErr "zz" ["0"] (GoError.msg "wrong number of fields")] }

/-- A concrete constructor configuration used by the evaluation
theorems. -/
def cfgW : Config :=
  { dataCsvPath := "data.csv"
    indexCsvPath := "index.csv"
    concurrentHandleLimit := 10
    warmUpCount := 0
    warmUpDelay := 0
    indexKeyLength := 2 }

/-! Helper lemmas about the pool and the scans. -/

theorem acquireHandle_admitted (f : FileIndex) (o : Bool)
    (hadm : f.openHandleCount ≤ f.concurrentHandleLimit)
    (hh : 0 < f.poolIdle ∨ o = true) :
    f.acquireHandle o =
      (.ok (), { f with openHandleCount := wrap32 (f.openHandleCount + 1),
                        poolIdle := f.poolIdle - 1 }) := by
  unfold FileIndex.acquireHandle poolGet
  rw [if_neg (by omega)]
  by_cases hidle : 0 < f.poolIdle
  · simp only [hidle, if_true]
  · have h0 : f.poolIdle = 0 := by omega
    have ho : o = true := by
      rcases hh with hh | hh
      · exact absurd hh hidle
      · exact hh
    simp only [hidle, if_false, ho, if_true, h0]
    rfl

theorem acquireHandle_rejected (f : FileIndex) (o : Bool)
    (h : f.concurrentHandleLimit < f.openHandleCount) :
    f.acquireHandle o = (.err TooManyConcurrentHandlesError, f) := by
  unfold FileIndex.acquireHandle
  rw [if_pos h]

theorem GetRow_eq_scan (f : FileIndex) (w : World) (rowKey : String) (off : Int)
    (hkey : f.indexKeyLength ≤ goLen rowKey)
    (hlook : idxLookup f.index (goSlice rowKey f.indexKeyLength) = some off)
    (hadm : f.openHandleCount ≤ f.concurrentHandleLimit)
    (hh : 0 < f.poolIdle ∨ w.openOk = true)
    (hseek : w.seekErr off = none) :
    f.GetRow w rowKey =
      (scanRow f.indexKeyLength (goSlice rowKey f.indexKeyLength) rowKey (w.events off),
       ({ f with openHandleCount := wrap32 (f.openHandleCount + 1),
                 poolIdle := f.poolIdle - 1 } : FileIndex).releaseHandle true) := by
  unfold FileIndex.GetRow
  rw [if_neg (by omega), hlook, acquireHandle_admitted f w.openOk hadm hh]
  simp only [hseek]

theorem GetRowsByPartialKey_eq_scan (f : FileIndex) (w : World) (rowKey : String)
    (off : Int) (limit : Int)
    (hkey : f.indexKeyLength ≤ goLen rowKey)
    (hlook : idxLookup f.index (goSlice rowKey f.indexKeyLength) = some off)
    (hadm : f.openHandleCount ≤ f.concurrentHandleLimit)
    (hh : 0 < f.poolIdle ∨ w.openOk = true)
    (hseek : w.seekErr off = none) :
    f.GetRowsByPartialKey w rowKey limit =
      (scanPartial f.indexKeyLength (goSlice rowKey f.indexKeyLength) rowKey limit []
         (w.events off),
       ({ f with openHandleCount := wrap32 (f.openHandleCount + 1),
                 poolIdle := f.poolIdle - 1 } : FileIndex).releaseHandle true) := by
  unfold FileIndex.GetRowsByPartialKey
  rw [if_neg (by omega), hlook, acquireHandle_admitted f w.openOk hadm hh]
  simp only [hseek]

theorem scanRow_cons_pass (keyLen : Nat) (ik rk : String) (r : String × List String)
    (t : List (String × List String)) (h : passRec keyLen ik rk r) :
    scanRow keyLen ik rk (cleanEvents (r :: t)) = scanRow keyLen ik rk (cleanEvents t) := by
  obtain ⟨first, rest⟩ := r
  simp only [cleanEvents, List.map_cons, scanRow]
  rcases h with h | ⟨h1, h2⟩
  · rw [if_pos h]
  · by_cases hlt : goLen first < keyLen
    · rw [if_pos hlt]
    · rw [if_neg hlt, if_neg (fun hn => hn h1), if_neg h2]

theorem scanRow_append_pass (keyLen : Nat) (ik rk : String)
    (pre l : List (String × List String))
    (h : ∀ r ∈ pre, passRec keyLen ik rk r) :
    scanRow keyLen ik rk (cleanEvents (pre ++ l)) = scanRow keyLen ik rk (cleanEvents l) := by
  induction pre with
  | nil => rfl
  | cons r t ih =>
    rw [List.cons_append, scanRow_cons_pass keyLen ik rk r (t ++ l) (h r (by simp))]
    exact ih fun s hs => h s (by simp [hs])

/-! Theorems for the claims. -/

/-- C7: for every key shorter than the configured prefix length, both
GetRow and GetRowsByPartialKey return the key-too-short error and leave
the engine state untouched — no handle is acquired and the world is never
consulted. -/
theorem C7_short_key_no_io (f : FileIndex) (w : World) (k : String) (limit : Int)
    (h : goLen k < f.indexKeyLength) :
    f.GetRow w k = (.err KeyTooShortForIndex, f) ∧
    f.GetRowsByPartialKey w k limit = (.err KeyTooShortForIndex, f) := by
  unfold FileIndex.GetRow FileIndex.GetRowsByPartialKey
  rw [if_pos h, if_pos h]
  exact ⟨rfl, rfl⟩

/-- Witness for C7 at the concrete engine `fW` and the one-character key
`c`. -/
theorem C7_short_key_no_io_witness :
    fW.GetRow wW "c" = (.err KeyTooShortForIndex, fW) ∧
    fW.GetRowsByPartialKey wW "c" 5 = (.err KeyTooShortForIndex, fW) :=
  C7_short_key_no_io fW wW "c" 5 (by decide)

/-- C8: for every key of sufficient length whose derived prefix is absent
from the index, GetRow returns a nil result and no error, acquires no
handle, and leaves the engine state untouched. -/
theorem C8_absent_prefix (f : FileIndex) (w : World) (k : String)
    (hlen : f.indexKeyLength ≤ goLen k)
    (habs : idxLookup f.index (goSlice k f.indexKeyLength) = none) :
    f.GetRow w k = (.ok none, f) := by
  unfold FileIndex.GetRow
  rw [if_neg (by omega), habs]

/-- Witness for C8 at the concrete engine `fW` and the key `zz`, whose
prefix is not indexed. -/
theorem C8_absent_prefix_witness : fW.GetRow wW "zz" = (.ok none, fW) :=
  C8_absent_prefix fW wW "zz" (by decide) (by decide)

/-- C4: evaluation of `acquireHandle` at the failing input — empty pool
and a data file that no longer opens.  The admission check passes, the
counter is incremented and not rolled back, but the call panics at the
type assertion `.(*os.File)` on the nil interface value returned by
`pool.New`, instead of returning `InvalidHandleError` as the claim (and
the intent of the unreachable `handle == nil` check) states. -/
theorem C4_handle_creation_panics :
    fW.acquireHandle false = (.panicked, { fW with openHandleCount := 1 }) ∧
    ({ fW with openHandleCount := 1 }).openHandleCount = fW.openHandleCount + 1 ∧
    (GoOutcome.panicked : GoOutcome Unit) ≠ .err InvalidHandleError := by
  refine ⟨by decide, by decide, by decide⟩

/-- C5 counterexample: a non-EOF read error inside the scan loop is not
propagated.  With a nil-record read error the call panics at `line[0]`
rather than returning the error; with a partial-record error the error is
silently ignored and the scan continues with the record (here ending the
region and returning not-found with no error). -/
theorem C5_scan_error_not_propagated_cex :
    (fW.GetRow wE1 "ca").1 = .panicked ∧
    (fW.GetRow wE1 "ca").1 ≠ .err (.msg "csv parse failure") ∧
    (fW.GetRow wE2 "ca").1 = .ok none ∧
    (fW.GetRow wE2 "ca").1 ≠ .err (.msg "wrong number of fields") := by
  refine ⟨by decide, by decide, by decide, by decide⟩

/-- C5 amended: inside the scan loops of GetRow and GetRowsByPartialKey
the read error is tested only against end-of-file.  End-of-file ends the
scan normally (not-found, or the rows collected so far, and no error); a
non-EOF error with a nil record panics at `line[0]`; a non-EOF error
accompanied by a partial record is ignored and the record is processed
exactly as a successful read. -/
theorem C5_scan_error_amended (keyLen : Nat) (ik rk first : String)
    (rest : List String) (e : GoError) (t : List ReadEvent) (limit : Int)
    (rows : List (List String)) :
    scanRow keyLen ik rk [] = .ok none ∧
    scanRow keyLen ik rk (.nilErr e :: t) = .panicked ∧
    scanRow keyLen ik rk (.rowErr first rest e :: t) =
      scanRow keyLen ik rk (.row first rest :: t) ∧
    scanPartial keyLen ik rk limit rows [] = .ok rows ∧
    scanPartial keyLen ik rk limit rows (.nilErr e :: t) = .panicked ∧
    scanPartial keyLen ik rk limit rows (.rowErr first rest e :: t) =
      scanPartial keyLen ik rk limit rows (.row first rest :: t) := by
  refine ⟨rfl, rfl, rfl, rfl, rfl, rfl⟩

/-- C1: over a cleanly readable region at the indexed offset, GetRow
returns exactly the fields of the record whose first field equals the key
(part one: every record before it is walked past, being either too short
or a same-prefix non-key record), and the scan stops with not-found as
soon as a record whose own prefix differs from the target prefix is
reached (part two). -/
theorem C1_GetRow_exact (f : FileIndex) (w : World) (rowKey : String) (off : Int)
    (pre post : List (String × List String)) (r : String × List String)
    (hkey : f.indexKeyLength ≤ goLen rowKey)
    (hlook : idxLookup f.index (goSlice rowKey f.indexKeyLength) = some off)
    (hadm : f.openHandleCount ≤ f.concurrentHandleLimit)
    (hh : 0 < f.poolIdle ∨ w.openOk = true)
    (hseek : w.seekErr off = none)
    (hevs : w.events off = cleanEvents (pre ++ r :: post))
    (hpre : ∀ s ∈ pre, passRec f.indexKeyLength (goSlice rowKey f.indexKeyLength) rowKey s) :
    (r.1 = rowKey → (f.GetRow w rowKey).1 = .ok (some (r.1 :: r.2))) ∧
    (f.indexKeyLength ≤ goLen r.1 →
      goSlice r.1 f.indexKeyLength ≠ goSlice rowKey f.indexKeyLength →
      (f.GetRow w rowKey).1 = .ok none) := by
  have hG := GetRow_eq_scan f w rowKey off hkey hlook hadm hh hseek
  have hS : (f.GetRow w rowKey).1 =
      scanRow f.indexKeyLength (goSlice rowKey f.indexKeyLength) rowKey
        (cleanEvents (r :: post)) := by
    rw [hG]
    show scanRow _ _ _ (w.events off) = _
    rw [hevs, scanRow_append_pass _ _ _ pre _ hpre]
  obtain ⟨first, rest⟩ := r
  dsimp only at hkey hlook hpre hS ⊢
  constructor
  · intro hr
    subst hr
    have h1 : ¬ (goLen first < f.indexKeyLength) := by omega
    rw [hS]
    simp [cleanEvents, scanRow, h1]
  · intro h1 h2
    have h1n : ¬ (goLen first < f.indexKeyLength) := by omega
    rw [hS]
    simp [cleanEvents, scanRow, h1n, h2]

/-- Witness for C1: in the region `cax,9` then `cat,1` then `da,2`, the
key `cat` retrieves exactly `cat,1` (first part), and with `da,2` as the
region-ending record the lookup of `caq`, absent from the region, stops
there with not-found (second part). -/
theorem C1_GetRow_exact_witness :
    (fW.GetRow wW "cat").1 = .ok (some ["cat", "1"]) ∧
    (fW.GetRow wW "caq").1 = .ok none :=
  ⟨(C1_GetRow_exact fW wW "cat" 0 [("cax", ["9"])] [("da", ["2"])] ("cat", ["1"])
      (by decide) (by decide) (by decide) (by decide) (by decide) (by decide)
      (by decide)).1 rfl,
   (C1_GetRow_exact fW wW "caq" 0 [("cax", ["9"]), ("cat", ["1"])] [] ("da", ["2"])
      (by decide) (by decide) (by decide) (by decide) (by decide) (by decide)
      (by decide)).2 (by decide) (by decide)⟩

theorem cleanEvents_cons (a : String) (b : List String)
    (t : List (String × List String)) :
    cleanEvents ((a, b) :: t) = ReadEvent.row a b :: cleanEvents t := rfl

theorem scanPartial_neg_one (keyLen : Nat) (ik rk : String)
    (rs : List (String × List String)) :
    ∀ rows : List (List String),
      scanPartial keyLen ik rk (-1) rows (cleanEvents rs) =
        .ok (rows ++ regionMatches keyLen ik rk rs) := by
  induction rs with
  | nil => intro rows; simp [cleanEvents, scanPartial, regionMatches]
  | cons r t ih =>
    intro rows
    obtain ⟨first, rest⟩ := r
    rw [cleanEvents_cons]
    simp only [scanPartial, regionMatches]
    by_cases h1 : goLen first < keyLen
    · simp only [if_pos h1]
      exact ih rows
    · by_cases h2 : goSlice first keyLen ≠ ik
      · simp only [if_neg h1, if_pos h2]
        simp
      · by_cases h3 : goContains (goToLower first) (goToLower rk)
        · simp only [if_neg h1, if_neg h2, if_pos h3]
          rw [if_neg (by simp)]
          rw [ih (rows ++ [first :: rest])]
          simp
        · simp only [if_neg h1, if_neg h2, if_neg h3]
          exact ih rows

theorem scanPartial_pos (keyLen : Nat) (ik rk : String) (limit : Int)
    (rs : List (String × List String)) :
    ∀ (rows : List (List String)) (n : Nat), 0 < n →
      (rows.length : Int) + n = limit →
      scanPartial keyLen ik rk limit rows (cleanEvents rs) =
        .ok (rows ++ (regionMatches keyLen ik rk rs).take n) := by
  induction rs with
  | nil => intro rows n _ _; simp [cleanEvents, scanPartial, regionMatches]
  | cons r t ih =>
    intro rows n hn hcap
    obtain ⟨first, rest⟩ := r
    rw [cleanEvents_cons]
    simp only [scanPartial, regionMatches]
    by_cases h1 : goLen first < keyLen
    · simp only [if_pos h1]
      exact ih rows n hn hcap
    · by_cases h2 : goSlice first keyLen ≠ ik
      · simp only [if_neg h1, if_pos h2]
        simp
      · by_cases h3 : goContains (goToLower first) (goToLower rk)
        · simp only [if_neg h1, if_neg h2, if_pos h3]
          by_cases hone : n = 1
          · subst hone
            rw [if_pos ⟨by simp; omega, by omega⟩]
            simp [List.take]
          · rw [if_neg (by simp; omega)]
            rw [ih (rows ++ [first :: rest]) (n - 1) (by omega) (by simp; omega)]
            have hsucc : n = (n - 1) + 1 := by omega
            rw [hsucc, List.take_succ_cons]
            simp
        · simp only [if_neg h1, if_neg h2, if_neg h3]
          exact ih rows n hn hcap

theorem scanPartial_nonpos (keyLen : Nat) (ik rk : String) (limit : Int)
    (h0 : limit ≤ 0) (hne : limit ≠ -1) (rs : List (String × List String)) :
    ∀ rows : List (List String),
      scanPartial keyLen ik rk limit rows (cleanEvents rs) =
        .ok (rows ++ (regionMatches keyLen ik rk rs).take 1) := by
  induction rs with
  | nil => intro rows; simp [cleanEvents, scanPartial, regionMatches]
  | cons r t ih =>
    intro rows
    obtain ⟨first, rest⟩ := r
    rw [cleanEvents_cons]
    simp only [scanPartial, regionMatches]
    by_cases h1 : goLen first < keyLen
    · simp only [if_pos h1]
      exact ih rows
    · by_cases h2 : goSlice first keyLen ≠ ik
      · simp only [if_neg h1, if_pos h2]
        simp
      · by_cases h3 : goContains (goToLower first) (goToLower rk)
        · simp only [if_neg h1, if_neg h2, if_pos h3]
          rw [if_pos ⟨by simp; omega, hne⟩]
          simp [List.take]
        · simp only [if_neg h1, if_neg h2, if_neg h3]
          exact ih rows

/-- C2 counterexample: with limit 0 (which is not −1) and one matching
record in the region, GetRowsByPartialKey returns that one record — one
row, not at most zero rows as the claim states for every limit other
than −1. -/
theorem C2_limit_zero_cex :
    (fW.GetRowsByPartialKey wW "ca" 0).1 = .ok [["cax", "9"]] ∧
    ¬ (([["cax", "9"]] : List (List String)).length ≤ 0) := by
  refine ⟨by decide, by decide⟩

/-- C2 amended: over a cleanly readable region at the indexed offset,
GetRowsByPartialKey returns in file order the records of the same-prefix
region whose first field contains the query as a case-insensitive
substring — all of them when limit is −1, and the first `limit` of them
when limit ≥ 1, returning as soon as `limit` matches are accumulated.
(For the remaining limits, 0 and those below −1, see the degenerate-limit
theorem: the call returns at the first match.) -/
theorem C2_partial_region (f : FileIndex) (w : World) (rowKey : String) (off : Int)
    (limit : Int) (rs : List (String × List String))
    (hkey : f.indexKeyLength ≤ goLen rowKey)
    (hlook : idxLookup f.index (goSlice rowKey f.indexKeyLength) = some off)
    (hadm : f.openHandleCount ≤ f.concurrentHandleLimit)
    (hh : 0 < f.poolIdle ∨ w.openOk = true)
    (hseek : w.seekErr off = none)
    (hevs : w.events off = cleanEvents rs) :
    (limit = -1 → (f.GetRowsByPartialKey w rowKey limit).1 =
      .ok (regionMatches f.indexKeyLength (goSlice rowKey f.indexKeyLength) rowKey rs)) ∧
    (1 ≤ limit → (f.GetRowsByPartialKey w rowKey limit).1 =
      .ok ((regionMatches f.indexKeyLength (goSlice rowKey f.indexKeyLength) rowKey rs).take
            limit.toNat)) := by
  constructor
  · intro hl
    subst hl
    rw [GetRowsByPartialKey_eq_scan f w rowKey off (-1) hkey hlook hadm hh hseek]
    show scanPartial _ _ _ _ _ (w.events off) = _
    rw [hevs, scanPartial_neg_one]
    simp
  · intro hl
    rw [GetRowsByPartialKey_eq_scan f w rowKey off limit hkey hlook hadm hh hseek]
    show scanPartial _ _ _ _ _ (w.events off) = _
    rw [hevs, scanPartial_pos _ _ _ limit rs [] limit.toNat (by omega) (by simp; omega)]
    simp

/-- Witness for C2 amended, on the region `cax,9` then `cat,1` then
`da,2`: the query `ca` with limit −1 collects both matching rows, and
with limit 1 collects only the first. -/
theorem C2_partial_region_witness :
    (fW.GetRowsByPartialKey wW "ca" (-1)).1 = .ok [["cax", "9"], ["cat", "1"]] ∧
    (fW.GetRowsByPartialKey wW "ca" 1).1 = .ok [["cax", "9"]] :=
  ⟨(C2_partial_region fW wW "ca" 0 (-1)
      [("cax", ["9"]), ("cat", ["1"]), ("da", ["2"])]
      (by decide) (by decide) (by decide) (by decide) (by decide) (by decide)).1 rfl,
   (C2_partial_region fW wW "ca" 0 1
      [("cax", ["9"]), ("cat", ["1"]), ("da", ["2"])]
      (by decide) (by decide) (by decide) (by decide) (by decide) (by decide)).2
     (by decide)⟩

/-- C9: for limit 0 and for every negative limit other than −1, the
partial lookup still collects the first match of the region and returns
immediately after appending it: the result is the one-element prefix of
the match list (one row when a match exists, no rows otherwise). -/
theorem C9_degenerate_limit (f : FileIndex) (w : World) (rowKey : String) (off : Int)
    (limit : Int) (rs : List (String × List String))
    (h0 : limit ≤ 0) (hne : limit ≠ -1)
    (hkey : f.indexKeyLength ≤ goLen rowKey)
    (hlook : idxLookup f.index (goSlice rowKey f.indexKeyLength) = some off)
    (hadm : f.openHandleCount ≤ f.concurrentHandleLimit)
    (hh : 0 < f.poolIdle ∨ w.openOk = true)
    (hseek : w.seekErr off = none)
    (hevs : w.events off = cleanEvents rs) :
    (f.GetRowsByPartialKey w rowKey limit).1 =
      .ok ((regionMatches f.indexKeyLength (goSlice rowKey f.indexKeyLength) rowKey rs).take 1) := by
  rw [GetRowsByPartialKey_eq_scan f w rowKey off limit hkey hlook hadm hh hseek]
  show scanPartial _ _ _ _ _ (w.events off) = _
  rw [hevs, scanPartial_nonpos _ _ _ limit h0 hne]
  simp

/-- Witness for C9: limit −2 yields exactly the first matching row of the
region. -/
theorem C9_degenerate_limit_witness :
    (fW.GetRowsByPartialKey wW "ca" (-2)).1 = .ok [["cax", "9"]] :=
  C9_degenerate_limit fW wW "ca" 0 (-2)
    [("cax", ["9"]), ("cat", ["1"]), ("da", ["2"])]
    (by decide) (by decide) (by decide) (by decide) (by decide) (by decide)
    (by decide) (by decide)

theorem wrap32_small (a : Int) (h1 : -2147483648 ≤ a) (h2 : a < 2147483648) :
    wrap32 a = a := by
  unfold wrap32; omega

theorem wrap32_shift (a b : Int) : wrap32 (wrap32 a + b) = wrap32 (a + b) := by
  unfold wrap32; omega

theorem wrap32_range (a : Int) : -2147483648 ≤ wrap32 a ∧ wrap32 a < 2147483648 := by
  unfold wrap32; omega

theorem releaseHandle_nil (f : FileIndex) : f.releaseHandle false = f := rfl

theorem acquireHandle_inv (f : FileIndex) (o : Bool) (out : Nat) (L : Int)
    (h : PoolInv L f out) (h0 : 0 ≤ L) (h1 : L ≤ 2147483647) :
    PoolInv L (f.acquireHandle o).2 out ∧
    ((f.acquireHandle o).1 = .ok () → PoolInv L (f.acquireHandle o).2 (out + 1)) := by
  obtain ⟨hL, s, hc, hos, hb⟩ := h
  by_cases hgt : f.concurrentHandleLimit < f.openHandleCount
  · rw [acquireHandle_rejected f o hgt]
    exact ⟨⟨hL, s, hc, hos, hb⟩, fun hok => by simp at hok⟩
  · have hle : f.openHandleCount ≤ f.concurrentHandleLimit := by omega
    have hbound : ((s : Int) + 1 ≤ L + 1 ∨ L = 2147483647) := by
      rcases hb with hb | hb
      · by_cases hmax : L = 2147483647
        · right; exact hmax
        · left
          have hsmall : wrap32 (s : Int) = (s : Int) := by
            apply wrap32_small <;> omega
          rw [hL] at hle
          rw [hc, hsmall] at hle
          omega
      · right; exact hb
    have hstate : ((f.acquireHandle o).2).openHandleCount = wrap32 ((s : Int) + 1) ∧
        ((f.acquireHandle o).2).concurrentHandleLimit = f.concurrentHandleLimit := by
      unfold FileIndex.acquireHandle
      rw [if_neg (by omega)]
      rcases hpg : poolGet f.poolIdle o with _ | idle2
      · exact ⟨by show wrap32 (f.openHandleCount + 1) = _; rw [hc, wrap32_shift], rfl⟩
      · exact ⟨by show wrap32 (f.openHandleCount + 1) = _; rw [hc, wrap32_shift], rfl⟩
    obtain ⟨hcnt, hlim⟩ := hstate
    have hInv2 : ∀ out2 : Nat, out2 ≤ s + 1 → PoolInv L (f.acquireHandle o).2 out2 := by
      intro out2 hout2
      refine ⟨by rw [hlim, hL], s + 1, ?_, hout2, ?_⟩
      · rw [hcnt]; congr 1
      · rcases hbound with hb2 | hb2
        · left; push_cast; omega
        · right; exact hb2
    exact ⟨hInv2 out (by omega), fun _ => hInv2 (out + 1) (by omega)⟩

theorem releaseHandle_inv (f : FileIndex) (out : Nat) (L : Int)
    (h : PoolInv L f out) (hout : 1 ≤ out) :
    PoolInv L (f.releaseHandle true) (out - 1) := by
  obtain ⟨hL, s, hc, hos, hb⟩ := h
  have hs1 : 1 ≤ s := le_trans hout hos
  unfold FileIndex.releaseHandle
  rw [if_pos rfl]
  refine ⟨hL, s - 1, ?_, by omega, ?_⟩
  · show wrap32 (f.openHandleCount - 1) = wrap32 ((s - 1 : Nat) : Int)
    rw [hc, sub_eq_add_neg, wrap32_shift]
    congr 1
    omega
  · rcases hb with hb | hb
    · left; omega
    · right; exact hb

theorem runPoolOps_inv (openOk : Bool) (L : Int) (h0 : 0 ≤ L) (h1 : L ≤ 2147483647) :
    ∀ (ops : List PoolOp) (f : FileIndex) (out : Nat),
      PoolInv L f out → wfPoolOps openOk f out ops = true →
      ∃ out2, PoolInv L (runPoolOps openOk f ops) out2 := by
  intro ops
  induction ops with
  | nil => intro f out hInv _; exact ⟨out, hInv⟩
  | cons op t ih =>
    intro f out hInv hwf
    cases op with
    | acquire =>
      have ha := acquireHandle_inv f openOk out L hInv h0 h1
      simp only [runPoolOps]
      unfold wfPoolOps at hwf
      rcases hacq : f.acquireHandle openOk with ⟨r, f2⟩
      rw [hacq] at hwf
      cases r with
      | ok a =>
        have h2 : PoolInv L f2 (out + 1) := by
          have hm := ha.2 (by rw [hacq])
          rwa [hacq] at hm
        exact ih f2 (out + 1) h2 hwf
      | err e =>
        have h2 : PoolInv L f2 out := by have hm := ha.1; rwa [hacq] at hm
        exact ih f2 out h2 hwf
      | panicked =>
        have h2 : PoolInv L f2 out := by have hm := ha.1; rwa [hacq] at hm
        exact ih f2 out h2 hwf
    | release b =>
      cases b with
      | true =>
        unfold wfPoolOps at hwf
        rw [Bool.and_eq_true, decide_eq_true_iff] at hwf
        obtain ⟨hout, hwf2⟩ := hwf
        simp only [runPoolOps]
        exact ih _ (out - 1) (releaseHandle_inv f out L hInv hout) hwf2
      | false =>
        unfold wfPoolOps at hwf
        simp only [runPoolOps, releaseHandle_nil]
        rw [releaseHandle_nil] at hwf
        exact ih f out hInv hwf

/-- C3 counterexample: with limit 0 and a fresh engine, a single correct
sequential acquisition is admitted (0 is not greater than 0) and leaves
the outstanding counter at 1, which exceeds the configured limit 0 — the
claimed invariant that the counter never exceeds the limit fails. -/
theorem C3_limit_exceeded_cex :
    wfPoolOps true { fW with concurrentHandleLimit := 0 } 0 [PoolOp.acquire] = true ∧
    (runPoolOps true { fW with concurrentHandleLimit := 0 } [PoolOp.acquire]).openHandleCount = 1 ∧
    ¬ ((1 : Int) ≤ ({ fW with concurrentHandleLimit := 0 } : FileIndex).concurrentHandleLimit) := by
  refine ⟨by decide, by decide, by decide⟩

/-- C3 amended: the admission check uses a strict comparison, so
acquireHandle admits a caller exactly when the outstanding count is at or
below the limit (and otherwise fails with the too-many-handles error and
no state change); consequently, under correct sequential operation
starting from a fresh engine, the outstanding count never exceeds
`limit + 1` (not `limit`). -/
theorem C3_handle_count_bounded (f : FileIndex) (openOk : Bool) (ops : List PoolOp)
    (h0 : 0 ≤ f.concurrentHandleLimit) (h1 : f.concurrentHandleLimit ≤ 2147483647)
    (hstart : f.openHandleCount = 0)
    (hwf : wfPoolOps openOk f 0 ops = true) :
    (runPoolOps openOk f ops).openHandleCount ≤ f.concurrentHandleLimit + 1 ∧
    (∀ g : FileIndex,
      (g.concurrentHandleLimit < g.openHandleCount →
        g.acquireHandle openOk = (.err TooManyConcurrentHandlesError, g)) ∧
      (g.openHandleCount ≤ g.concurrentHandleLimit →
        ((g.acquireHandle openOk).2).openHandleCount = wrap32 (g.openHandleCount + 1))) := by
  constructor
  · have hInv : PoolInv f.concurrentHandleLimit f 0 :=
      ⟨rfl, 0, by rw [hstart]; decide, Nat.le_refl 0, Or.inl (by omega)⟩
    obtain ⟨out2, hL2, s, hc, hos, hb⟩ :=
      runPoolOps_inv openOk f.concurrentHandleLimit h0 h1 ops f 0 hInv hwf
    rw [hc]
    rcases hb with hb | hb
    · unfold wrap32; omega
    · have := wrap32_range (s : Int)
      omega
  · intro g
    constructor
    · intro hgt
      exact acquireHandle_rejected g openOk hgt
    · intro hle
      unfold FileIndex.acquireHandle
      rw [if_neg (by omega)]
      rcases hpg : poolGet g.poolIdle openOk with _ | idle2 <;> rfl

/-- Witness for C3 amended: limit 1, two acquisitions and one release,
all correct; the counter stays at or below 2. -/
theorem C3_handle_count_bounded_witness :
    (runPoolOps true fW [PoolOp.acquire, PoolOp.acquire, PoolOp.release true]).openHandleCount ≤
      fW.concurrentHandleLimit + 1 :=
  (C3_handle_count_bounded fW true [PoolOp.acquire, PoolOp.acquire, PoolOp.release true]
    (by decide) (by decide) (by decide) (by decide)).1

theorem buildIndexLoop_twoCol (lines : List (String × String)) :
    ∀ m, buildIndexLoop m (twoColLines lines) = .ok (buildIndexPure m lines) := by
  induction lines with
  | nil => intro m; rfl
  | cons p t ih =>
    intro m
    obtain ⟨k, s⟩ := p
    show buildIndexLoop m (ReadEvent.row k [s] :: twoColLines t) =
      GoOutcome.ok (buildIndexPure m ((k, s) :: t))
    rcases hp : parseInt64 s with _ | off
    · simp only [buildIndexLoop, buildIndexPure, hp]
      exact ih m
    · simp only [buildIndexLoop, buildIndexPure, hp]
      exact ih (idxInsert m k off)

theorem idxLookup_insert_self (m : List (String × Int)) (k : String) (v : Int) :
    idxLookup (idxInsert m k v) k = some v := by
  induction m with
  | nil => simp [idxInsert, idxLookup]
  | cons p t ih =>
    obtain ⟨k0, v0⟩ := p
    by_cases hk : k0 = k
    · simp [idxInsert, idxLookup, hk]
    · simp [idxInsert, idxLookup, hk, ih]

theorem buildIndexPure_append (l1 l2 : List (String × String)) :
    ∀ m, buildIndexPure m (l1 ++ l2) = buildIndexPure (buildIndexPure m l1) l2 := by
  induction l1 with
  | nil => intro m; rfl
  | cons p t ih =>
    intro m
    obtain ⟨k, s⟩ := p
    show buildIndexPure m ((k, s) :: (t ++ l2)) = _
    rcases hp : parseInt64 s with _ | off <;> simp only [buildIndexPure, hp] <;>
      apply ih

/-- C6: construction fails exactly on a missing data file, a missing index
file, or an index file that cannot be opened (conjuncts one to three);
over a well-formed two-column index CSV it always succeeds with the loaded
map and fresh pool state (conjunct four); a line whose offset column does
not parse as an integer is skipped without error (conjunct five); and a
later parsable line for the same prefix overwrites any earlier entry, so
the last occurrence wins (conjunct six). -/
theorem C6_NewFileIndex_spec (config : Config) (indexExists : Bool)
    (openErr : Option GoError) (evs : List ReadEvent) (e : GoError)
    (lines pre : List (String × String)) (m : List (String × Int))
    (k badOff okOff : String) (v : Int) :
    (NewFileIndex config false indexExists openErr evs =
      .err (.msg "data csv file does not exist")) ∧
    (NewFileIndex config true false openErr evs =
      .err (.msg "index csv file does not exist")) ∧
    (NewFileIndex config true true (some e) evs = .err e) ∧
    (NewFileIndex config true true none (twoColLines lines) =
      .ok { dataCsvPath := config.dataCsvPath
            indexCsvPath := config.indexCsvPath
            concurrentHandleLimit := config.concurrentHandleLimit
            warmUp := false
            warmUpCount := config.warmUpCount
            warmUpDelay := config.warmUpDelay
            indexKeyLength := config.indexKeyLength
            poolIdle := 0
            openHandleCount := 0
            index := buildIndexPure [] lines }) ∧
    (parseInt64 badOff = none →
      buildIndexLoop m (ReadEvent.row k [badOff] :: twoColLines lines) =
        buildIndexLoop m (twoColLines lines)) ∧
    (parseInt64 okOff = some v →
      idxLookup (buildIndexPure m (pre ++ [(k, okOff)])) k = some v) := by
  refine ⟨rfl, rfl, rfl, ?_, ?_, ?_⟩
  · unfold NewFileIndex
    rw [buildIndexLoop_twoCol lines []]
    rfl
  · intro hbad
    simp only [buildIndexLoop, hbad]
  · intro hok
    rw [buildIndexPure_append pre [(k, okOff)] m]
    simp only [buildIndexPure, hok]
    exact idxLookup_insert_self _ k v

/-- Witness for C6: a missing data file fails; a two-line index for the
same prefix `aa` loads with the later offset 2 winning; a line with the
unparsable offset `xx` is dropped; the duplicate-prefix lookup yields the
later value. -/
theorem C6_NewFileIndex_spec_witness :
    NewFileIndex cfgW false true none [] =
      .err (.msg "data csv file does not exist") ∧
    NewFileIndex cfgW true true none (twoColLines [("aa", "1"), ("aa", "2")]) =
      .ok { dataCsvPath := "data.csv"
            indexCsvPath := "index.csv"
            concurrentHandleLimit := 10
            warmUp := false
            warmUpCount := 0
            warmUpDelay := 0
            indexKeyLength := 2
            poolIdle := 0
            openHandleCount := 0
            index := [("aa", 2)] } ∧
    buildIndexLoop [] (ReadEvent.row "aa" ["xx"] :: twoColLines []) =
      buildIndexLoop [] (twoColLines []) ∧
    idxLookup (buildIndexPure [] ([("aa", "1")] ++ [("aa", "2")])) "aa" = some 2 :=
  ⟨(C6_NewFileIndex_spec cfgW true none [] (.msg "boom") [("aa", "1"), ("aa", "2")]
      [("aa", "1")] [] "aa" "xx" "2" 2).1,
   (C6_NewFileIndex_spec cfgW true none [] (.msg "boom") [("aa", "1"), ("aa", "2")]
      [("aa", "1")] [] "aa" "xx" "2" 2).2.2.2.1,
   (C6_NewFileIndex_spec cfgW true none [] (.msg "boom") []
      [("aa", "1")] [] "aa" "xx" "2" 2).2.2.2.2.1 (by decide),
   (C6_NewFileIndex_spec cfgW true none [] (.msg "boom") []
      [("aa", "1")] [] "aa" "xx" "2" 2).2.2.2.2.2 (by decide)⟩

theorem sameConfig_refl (f : FileIndex) : sameConfig f f :=
  ⟨rfl, rfl, rfl, rfl, rfl, rfl, rfl, rfl⟩

theorem sameConfig_trans (f g h : FileIndex) :
    sameConfig f g → sameConfig g h → sameConfig f h := by
  intro a b
  obtain ⟨a1, a2, a3, a4, a5, a6, a7, a8⟩ := a
  obtain ⟨b1, b2, b3, b4, b5, b6, b7, b8⟩ := b
  exact ⟨b1.trans a1, b2.trans a2, b3.trans a3, b4.trans a4, b5.trans a5,
         b6.trans a6, b7.trans a7, b8.trans a8⟩

theorem acquireHandle_sameConfig (f : FileIndex) (o : Bool) :
    sameConfig f (f.acquireHandle o).2 := by
  unfold FileIndex.acquireHandle
  by_cases hgt : f.openHandleCount > f.concurrentHandleLimit
  · rw [if_pos hgt]
    exact sameConfig_refl f
  · rw [if_neg hgt]
    rcases hpg : poolGet f.poolIdle o with _ | idle2 <;>
      exact ⟨rfl, rfl, rfl, rfl, rfl, rfl, rfl, rfl⟩

theorem releaseHandle_sameConfig (f : FileIndex) (b : Bool) :
    sameConfig f (f.releaseHandle b) := by
  cases b
  · exact sameConfig_refl f
  · exact ⟨rfl, rfl, rfl, rfl, rfl, rfl, rfl, rfl⟩

theorem acquireHandle_err_state (f : FileIndex) (o : Bool) (e : GoError)
    (f1 : FileIndex) (h : f.acquireHandle o = (.err e, f1)) : f1 = f := by
  unfold FileIndex.acquireHandle at h
  by_cases hgt : f.openHandleCount > f.concurrentHandleLimit
  · rw [if_pos hgt] at h
    injection h with h1 h2
    exact h2.symm
  · rw [if_neg hgt] at h
    rcases hpg : poolGet f.poolIdle o with _ | idle2 <;> rw [hpg] at h <;>
      exact absurd h (by simp)

theorem acquireHandle_ok_count (f : FileIndex) (o : Bool) (a : Unit)
    (f1 : FileIndex) (h : f.acquireHandle o = (.ok a, f1)) :
    f1.openHandleCount = wrap32 (f.openHandleCount + 1) := by
  unfold FileIndex.acquireHandle at h
  by_cases hgt : f.openHandleCount > f.concurrentHandleLimit
  · rw [if_pos hgt] at h
    exact absurd h (by simp)
  · rw [if_neg hgt] at h
    rcases hpg : poolGet f.poolIdle o with _ | idle2 <;> rw [hpg] at h
    · exact absurd h (by simp)
    · injection h with h1 h2
      rw [← h2]

theorem wrap32_roundtrip (c : Int) (h1 : -2147483648 ≤ c) (h2 : c < 2147483648) :
    wrap32 (wrap32 (c + 1) - 1) = c := by
  unfold wrap32
  omega

/-- C10: every call to GetRow or GetRowsByPartialKey leaves the prefix
index and all configuration fields unchanged on every exit path — only
the handle counter and the idle pool are touched — and on every path that
returns (rather than panicking) the counter is back at its starting
value, the deferred release having undone the acquisition. -/
theorem C10_lookup_frame (f : FileIndex) (w : World) (rowKey : String) (limit : Int)
    (hlo : -2147483648 ≤ f.openHandleCount) (hhi : f.openHandleCount < 2147483648) :
    (sameConfig f (f.GetRow w rowKey).2 ∧
      ((f.GetRow w rowKey).1 ≠ .panicked →
        (f.GetRow w rowKey).2.openHandleCount = f.openHandleCount)) ∧
    (sameConfig f (f.GetRowsByPartialKey w rowKey limit).2 ∧
      ((f.GetRowsByPartialKey w rowKey limit).1 ≠ .panicked →
        (f.GetRowsByPartialKey w rowKey limit).2.openHandleCount = f.openHandleCount)) := by
  constructor
  · unfold FileIndex.GetRow
    by_cases hshort : goLen rowKey < f.indexKeyLength
    · rw [if_pos hshort]
      exact ⟨sameConfig_refl f, fun _ => rfl⟩
    · rw [if_neg hshort]
      split
      · exact ⟨sameConfig_refl f, fun _ => rfl⟩
      · split
        · rename_i e f1 hacq
          have hf1 : f1 = f := acquireHandle_err_state f w.openOk e f1 hacq
          rw [hf1]
          exact ⟨sameConfig_refl f, fun _ => rfl⟩
        · rename_i f1 hacq
          have hsc : sameConfig f f1 := by
            have hq := acquireHandle_sameConfig f w.openOk
            rwa [hacq] at hq
          exact ⟨hsc, fun hne => absurd rfl hne⟩
        · rename_i a f1 hacq
          have hsc : sameConfig f f1 := by
            have hq := acquireHandle_sameConfig f w.openOk
            rwa [hacq] at hq
          have hcnt : f1.openHandleCount = wrap32 (f.openHandleCount + 1) :=
            acquireHandle_ok_count f w.openOk a f1 hacq
          have hrel : (f1.releaseHandle true).openHandleCount = f.openHandleCount := by
            show wrap32 (f1.openHandleCount - 1) = f.openHandleCount
            rw [hcnt]
            exact wrap32_roundtrip f.openHandleCount hlo hhi
          have hsc2 : sameConfig f (f1.releaseHandle true) :=
            sameConfig_trans f f1 _ hsc (releaseHandle_sameConfig f1 true)
          split
          · exact ⟨hsc2, fun _ => hrel⟩
          · exact ⟨hsc2, fun _ => hrel⟩
  · unfold FileIndex.GetRowsByPartialKey
    by_cases hshort : goLen rowKey < f.indexKeyLength
    · rw [if_pos hshort]
      exact ⟨sameConfig_refl f, fun _ => rfl⟩
    · rw [if_neg hshort]
      split
      · exact ⟨sameConfig_refl f, fun _ => rfl⟩
      · split
        · rename_i e f1 hacq
          have hf1 : f1 = f := acquireHandle_err_state f w.openOk e f1 hacq
          rw [hf1]
          exact ⟨sameConfig_refl f, fun _ => rfl⟩
        · rename_i f1 hacq
          have hsc : sameConfig f f1 := by
            have hq := acquireHandle_sameConfig f w.openOk
            rwa [hacq] at hq
          exact ⟨hsc, fun hne => absurd rfl hne⟩
        · rename_i a f1 hacq
          have hsc : sameConfig f f1 := by
            have hq := acquireHandle_sameConfig f w.openOk
            rwa [hacq] at hq
          have hcnt : f1.openHandleCount = wrap32 (f.openHandleCount + 1) :=
            acquireHandle_ok_count f w.openOk a f1 hacq
          have hrel : (f1.releaseHandle true).openHandleCount = f.openHandleCount := by
            show wrap32 (f1.openHandleCount - 1) = f.openHandleCount
            rw [hcnt]
            exact wrap32_roundtrip f.openHandleCount hlo hhi
          have hsc2 : sameConfig f (f1.releaseHandle true) :=
            sameConfig_trans f f1 _ hsc (releaseHandle_sameConfig f1 true)
          split
          · exact ⟨hsc2, fun _ => hrel⟩
          · exact ⟨hsc2, fun _ => hrel⟩

/-- Witness for C10: a successful exact lookup and a limited partial
lookup both leave the configuration and the counter unchanged. -/
theorem C10_lookup_frame_witness :
    sameConfig fW (fW.GetRow wW "cat").2 ∧
    (fW.GetRow wW "cat").2.openHandleCount = fW.openHandleCount ∧
    sameConfig fW (fW.GetRowsByPartialKey wW "ca" 1).2 ∧
    (fW.GetRowsByPartialKey wW "ca" 1).2.openHandleCount = fW.openHandleCount :=
  ⟨(C10_lookup_frame fW wW "cat" 1 (by decide) (by decide)).1.1,
   (C10_lookup_frame fW wW "cat" 1 (by decide) (by decide)).1.2 (by decide),
   (C10_lookup_frame fW wW "ca" 1 (by decide) (by decide)).2.1,
   (C10_lookup_frame fW wW "ca" 1 (by decide) (by decide)).2.2 (by decide)⟩

end Cbindex
